import Mathlib

/-!
Verification of the sql-agent core against its natural-language specification.

The development shallowly embeds the Python sources:
  * `src/app/sessions.py`  (SessionStore: JSON-backed session log, atomic save)
  * `src/app/agent/tools.py` (ToolSpec registry and `dispatch_tool`)
  * `src/app/agent/sql_tools.py` and `src/app/db.py` (read-only SQL guard)
  * `src/app/server.py` (streaming-delta aggregation, fallback path,
    schema-first policy gate, tool-round execution, terminal events)

JSON values are modelled by an inductive `Json`; Python dicts are
insertion-ordered association lists, matching CPython semantics.
`json.dumps(..., ensure_ascii=False)` is modelled by `jsonToString`
(default separators ", " and ": "), and `json.loads` by `parseJson`
(integer-only number grammar; no claim exercises fractions or exponents).
-/

/-- JSON values as produced and consumed by the Python code.  Object fields
are kept in insertion order, as CPython dicts do. -/
inductive Json where
  | null : Json
  | bool (b : Bool) : Json
  | num (n : Int) : Json
  | str (s : String) : Json
  | arr (xs : List Json) : Json
  | obj (fields : List (String × Json)) : Json

/-- `m.get(k)` on a Python dict modelled as a `Json.obj`; `none` otherwise. -/
def jget (j : Json) (k : String) : Option Json :=
  match j with
  | Json.obj fields => lookupField fields k
  | _ => none
where lookupField : List (String × Json) → String → Option Json
  | [], _ => none
  | (k', v) :: rest, k => if k' = k then some v else lookupField rest k

/-- Hex digit for `\u00XX` escapes of control characters, as json.dumps emits. -/
def hexDigit (n : Nat) : Char :=
  if n < 10 then Char.ofNat (48 + n) else Char.ofNat (87 + n)

/-- Escape one character the way `json.dumps(..., ensure_ascii=False)` does:
quote, backslash and control characters are escaped, everything else is kept. -/
def escapeChar (c : Char) : List Char :=
  if c = '"' then ['\\', '"']
  else if c = '\\' then ['\\', '\\']
  else if c = '\n' then ['\\', 'n']
  else if c = '\t' then ['\\', 't']
  else if c = '\r' then ['\\', 'r']
  else if c = Char.ofNat 8 then ['\\', 'b']
  else if c = Char.ofNat 12 then ['\\', 'f']
  else if c.toNat < 32 then
    ['\\', 'u', '0', '0', hexDigit (c.toNat / 16), hexDigit (c.toNat % 16)]
  else [c]

/-- JSON string literal serialization. -/
def quoteJson (s : String) : String :=
  String.mk ('"' :: (s.data.map escapeChar).flatten ++ ['"'])

mutual

/-- `json.dumps(v, ensure_ascii=False)` with the default ", " / ": " separators. -/
def jsonToString : Json → String
  | Json.null => "null"
  | Json.bool true => "true"
  | Json.bool false => "false"
  | Json.num n => toString n
  | Json.str s => quoteJson s
  | Json.arr xs => "[" ++ jsonArrStr xs ++ "]"
  | Json.obj fs => "\x7b" ++ jsonObjStr fs ++ "\x7d"

def jsonArrStr : List Json → String
  | [] => ""
  | [x] => jsonToString x
  | x :: y :: rest => jsonToString x ++ ", " ++ jsonArrStr (y :: rest)

def jsonObjStr : List (String × Json) → String
  | [] => ""
  | [(k, v)] => quoteJson k ++ ": " ++ jsonToString v
  | (k, v) :: f :: rest => quoteJson k ++ ": " ++ jsonToString v ++ ", " ++ jsonObjStr (f :: rest)

end

/-- JSON insignificant whitespace. -/
def isJsonWs (c : Char) : Bool :=
  c = ' ' || c = '\t' || c = '\n' || c = '\r'

/-- Skip insignificant whitespace. -/
def skipWs (cs : List Char) : List Char :=
  cs.dropWhile isJsonWs

/-- Decode one (possibly escaped) character of a JSON string literal.
Returns the decoded character and the remaining input. -/
def parseStringChars (fuel : Nat) (cs : List Char) : Except String (String × List Char) :=
  match fuel, cs with
  | 0, _ => Except.error "parse fuel exhausted"
  | _, [] => Except.error "unterminated string"
  | fuel + 1, c :: rest =>
    if c = '"' then Except.ok ("", rest)
    else if c = '\\' then
      match rest with
      | [] => Except.error "unterminated escape"
      | e :: rest' =>
        let dec : Except String (Char × List Char) :=
          if e = '"' then Except.ok ('"', rest')
          else if e = '\\' then Except.ok ('\\', rest')
          else if e = '/' then Except.ok ('/', rest')
          else if e = 'n' then Except.ok ('\n', rest')
          else if e = 't' then Except.ok ('\t', rest')
          else if e = 'r' then Except.ok ('\r', rest')
          else if e = 'b' then Except.ok (Char.ofNat 8, rest')
          else if e = 'f' then Except.ok (Char.ofNat 12, rest')
          else Except.error "unsupported escape"
        match dec with
        | Except.error msg => Except.error msg
        | Except.ok (ch, rest'') =>
          match parseStringChars fuel rest'' with
          | Except.error msg => Except.error msg
          | Except.ok (s, rem) => Except.ok (String.mk (ch :: s.data), rem)
    else
      match parseStringChars fuel rest with
      | Except.error msg => Except.error msg
      | Except.ok (s, rem) => Except.ok (String.mk (c :: s.data), rem)

/-- Parse the digits of a non-negative integer. -/
def parseDigits (cs : List Char) (acc : Nat) (seen : Bool) : Except String (Nat × List Char) :=
  match cs with
  | c :: rest =>
    if c.isDigit then parseDigits rest (acc * 10 + (c.toNat - 48)) true
    else if seen then Except.ok (acc, cs) else Except.error "expected digit"
  | [] => if seen then Except.ok (acc, []) else Except.error "expected digit"

mutual

/-- Recursive-descent parser for JSON values (model of `json.loads`;
number grammar restricted to optionally signed integers). -/
def parseVal (fuel : Nat) (cs : List Char) : Except String (Json × List Char) :=
  match fuel with
  | 0 => Except.error "parse fuel exhausted"
  | fuel + 1 =>
    match skipWs cs with
    | [] => Except.error "unexpected end of input"
    | c :: rest =>
      if c = '\x7b' then parseObjFields fuel rest true
      else if c = '[' then parseArrItems fuel rest true
      else if c = '"' then
        match parseStringChars fuel rest with
        | Except.error msg => Except.error msg
        | Except.ok (s, rem) => Except.ok (Json.str s, rem)
      else if c = 't' then
        match rest with
        | 'r' :: 'u' :: 'e' :: rem => Except.ok (Json.bool true, rem)
        | _ => Except.error "invalid literal"
      else if c = 'f' then
        match rest with
        | 'a' :: 'l' :: 's' :: 'e' :: rem => Except.ok (Json.bool false, rem)
        | _ => Except.error "invalid literal"
      else if c = 'n' then
        match rest with
        | 'u' :: 'l' :: 'l' :: rem => Except.ok (Json.null, rem)
        | _ => Except.error "invalid literal"
      else if c = '-' then
        match parseDigits rest 0 false with
        | Except.error msg => Except.error msg
        | Except.ok (n, rem) => Except.ok (Json.num (-(n : Int)), rem)
      else if c.isDigit then
        match parseDigits (c :: rest) 0 false with
        | Except.error msg => Except.error msg
        | Except.ok (n, rem) => Except.ok (Json.num (n : Int), rem)
      else Except.error "unexpected character"

/-- Parse the fields of an object after the opening brace.  `first` is true
until a field has been consumed. -/
def parseObjFields (fuel : Nat) (cs : List Char) (first : Bool) : Except String (Json × List Char) :=
  match fuel with
  | 0 => Except.error "parse fuel exhausted"
  | fuel + 1 =>
    match skipWs cs with
    | [] => Except.error "unterminated object"
    | c :: rest =>
      if c = '\x7d' ∧ first then Except.ok (Json.obj [], rest)
      else
        let afterSep : Except String (List Char) :=
          if first then Except.ok (c :: rest)
          else if c = '\x7d' then Except.ok []
          else if c = ',' then Except.ok (skipWs rest)
          else Except.error "expected comma or end of object"
        match afterSep with
        | Except.error msg => Except.error msg
        | Except.ok [] => Except.ok (Json.obj [], rest)
        | Except.ok (k :: ks) =>
          if k = '"' then
            match parseStringChars fuel ks with
            | Except.error msg => Except.error msg
            | Except.ok (key, rem) =>
              match skipWs rem with
              | ':' :: rem' =>
                match parseVal fuel rem' with
                | Except.error msg => Except.error msg
                | Except.ok (v, rem'') =>
                  match parseObjFields fuel rem'' false with
                  | Except.error msg => Except.error msg
                  | Except.ok (Json.obj fs, rem''') => Except.ok (Json.obj ((key, v) :: fs), rem''')
                  | Except.ok _ => Except.error "impossible object tail"
              | _ => Except.error "expected colon"
          else Except.error "expected property name"

/-- Parse the items of an array after the opening bracket. -/
def parseArrItems (fuel : Nat) (cs : List Char) (first : Bool) : Except String (Json × List Char) :=
  match fuel with
  | 0 => Except.error "parse fuel exhausted"
  | fuel + 1 =>
    match skipWs cs with
    | [] => Except.error "unterminated array"
    | c :: rest =>
      if c = ']' ∧ first then Except.ok (Json.arr [], rest)
      else
        let afterSep : Except String (List Char) :=
          if first then Except.ok (c :: rest)
          else if c = ']' then Except.ok []
          else if c = ',' then Except.ok (skipWs rest)
          else Except.error "expected comma or end of array"
        match afterSep with
        | Except.error msg => Except.error msg
        | Except.ok [] => Except.ok (Json.arr [], rest)
        | Except.ok more =>
          match parseVal fuel more with
          | Except.error msg => Except.error msg
          | Except.ok (v, rem) =>
            match parseArrItems fuel rem false with
            | Except.error msg => Except.error msg
            | Except.ok (Json.arr xs, rem') => Except.ok (Json.arr (v :: xs), rem')
            | Except.ok _ => Except.error "impossible array tail"

end

/-- Model of `json.loads`: parse a complete JSON document. -/
def parseJson (s : String) : Except String Json :=
  match parseVal (2 * s.data.length + 4) s.data with
  | Except.error msg => Except.error msg
  | Except.ok (v, rest) =>
    if (skipWs rest).isEmpty then Except.ok v
    else Except.error "extra data"

/-!  Session Store (`src/app/sessions.py`).

A session is the per-id dict created by `SessionStore.create` /
`SessionStore.append`: keys title, created_at, updated_at, messages, model,
in that insertion order.  The store's in-memory data is
`{"sessions": {id: session, ...}}`; we model the inner dict as an
insertion-ordered association list. -/

/-- One session record, mirroring the dict built in `sessions.py`. -/
structure Session where
  title : String
  created_at : Int
  updated_at : Int
  messages : List Json
  model : Option String

/-- The store's in-memory data: the `"sessions"` mapping. -/
structure StoreData where
  sessions : List (String × Session)

/-- The empty store (`{"sessions": {}}`). -/
def emptyStore : StoreData := ⟨[]⟩

/-- Dict lookup on the sessions mapping. -/
def getSession (d : StoreData) (id : String) : Option Session :=
  go d.sessions id
where go : List (String × Session) → String → Option Session
  | [], _ => none
  | (k, v) :: rest, id => if k = id then some v else go rest id

/-- Dict write `sessions[id] = s`: updates in place, or appends a new key at
the end, as CPython dicts do. -/
def setSessionList : List (String × Session) → String → Session → List (String × Session)
  | [], id, s => [(id, s)]
  | (k, v) :: rest, id, s =>
    if k = id then (id, s) :: rest else (k, v) :: setSessionList rest id s

def setSession (d : StoreData) (id : String) (s : Session) : StoreData :=
  ⟨setSessionList d.sessions id s⟩

/-- Dict deletion `del sessions[id]`. -/
def delSession (d : StoreData) (id : String) : StoreData :=
  ⟨d.sessions.filter (fun kv => kv.1 ≠ id)⟩

/-- The mutating SessionStore operations and their arguments. -/
inductive StoreOp where
  | create (id : String) (title : String) (created_at : Int) (model : Option String)
  | append (id : String) (msg : Json) (updated_at : Int)
  | rename (id : String) (title : String) (updated_at : Int)
  | update_model (id : String) (model : String) (updated_at : Int)
  | delete (id : String)

/-- The in-memory mutation performed by each operation (`sessions.py`):
`create` inserts a fresh record only when the id is absent; `append` uses
`setdefault` and then appends the message and stamps `updated_at`;
`rename`/`update_model` are no-ops on a missing id; `delete` removes. -/
def applyOp (d : StoreData) : StoreOp → StoreData
  | StoreOp.create id title created model =>
    match getSession d id with
    | some _ => d
    | none => setSession d id ⟨title, created, created, [], model⟩
  | StoreOp.append id msg ts =>
    match getSession d id with
    | some s => setSession d id { s with messages := s.messages ++ [msg], updated_at := ts }
    | none => setSession d id ⟨"", ts, ts, [msg], none⟩
  | StoreOp.rename id title ts =>
    match getSession d id with
    | some s => setSession d id { s with title := title, updated_at := ts }
    | none => d
  | StoreOp.update_model id m ts =>
    match getSession d id with
    | some s => setSession d id { s with model := some m, updated_at := ts }
    | none => d
  | StoreOp.delete id =>
    match getSession d id with
    | some _ => delSession d id
    | none => d

def applyOps (d : StoreData) (ops : List StoreOp) : StoreData :=
  ops.foldl applyOp d

/-- Whether the operation reaches `self._save()` in `sessions.py`
(create on an existing id, and rename/update_model/delete on a missing id,
return without saving). -/
def opSaves (d : StoreData) : StoreOp → Bool
  | StoreOp.create id _ _ _ => (getSession d id).isNone
  | StoreOp.append _ _ _ => true
  | StoreOp.rename id _ _ => (getSession d id).isSome
  | StoreOp.update_model id _ _ => (getSession d id).isSome
  | StoreOp.delete id => (getSession d id).isSome

/-- `SessionStore.get_messages`: the session's message list, or `[]` when the
id is absent. -/
def get_messages (d : StoreData) (id : String) : List Json :=
  match getSession d id with
  | some s => s.messages
  | none => []

/-- The session record as the JSON object written to disk (field insertion
order of `sessions.py`). -/
def sessionToJson (s : Session) : Json :=
  Json.obj [
    ("title", Json.str s.title),
    ("created_at", Json.num s.created_at),
    ("updated_at", Json.num s.updated_at),
    ("messages", Json.arr s.messages),
    ("model", match s.model with | some m => Json.str m | none => Json.null)]

/-- The store data as the JSON document `{"sessions": {...}}`. -/
def storeToJson (d : StoreData) : Json :=
  Json.obj [("sessions", Json.obj (d.sessions.map (fun kv => (kv.1, sessionToJson kv.2))))]

/-- `json.dumps(self._data, ensure_ascii=False)`: the full serialized map,
as `SessionStore._save` writes it. -/
def serializeStore (d : StoreData) : String :=
  jsonToString (storeToJson d)

/-!  Micro-step crash model of `SessionStore._save`.

`_save` writes the whole serialized map to `<path>.tmp` and then calls
`tmp.replace(self.path)`, an atomic rename.  Each mutating operation is
compiled to micro-steps: the in-memory mutation, then (when the code reaches
`_save`) the tmp write and the atomic replace.  The payload carried by
`writeTmp`/`replace` is the serialization of the mutated data — exactly the
bytes `_save` wrote to the tmp file, which `replace` installs wholesale.
A crash is modelled by executing only a prefix of the micro-step trace:
`writeTmp` never touches the live file, and `replace` swaps its full payload
in atomically. -/

/-- Micro-steps of store execution. -/
inductive Micro where
  | mutate (op : StoreOp)
  | writeTmp (s : String)
  | replace (s : String)

/-- Machine state: in-memory data, the tmp file (if written) and the live
file contents. -/
structure MState where
  data : StoreData
  tmp : Option String
  disk : String

/-- Effect of one micro-step. -/
def stepMicro (m : MState) : Micro → MState
  | Micro.mutate op => { m with data := applyOp m.data op }
  | Micro.writeTmp s => { m with tmp := some s }
  | Micro.replace s => { m with disk := s }

/-- Compile a list of operations to the micro-step trace they execute. -/
def microList (d : StoreData) : List StoreOp → List Micro
  | [] => []
  | op :: rest =>
    let d' := applyOp d op
    (Micro.mutate op ::
      (if opSaves d op then [Micro.writeTmp (serializeStore d'), Micro.replace (serializeStore d')]
       else [])) ++ microList d' rest

/-- Run a (possibly truncated) micro-step trace. -/
def runMicros (m : MState) (l : List Micro) : MState :=
  l.foldl stepMicro m

/-!  Helpers for the `updated_at` claims. -/

/-- The stored `updated_at` of a session, when present. -/
def uAtOpt (d : StoreData) (c : String) : Option Int :=
  (getSession d c).map Session.updated_at

/-- The timestamp argument carried by an operation (`delete` has none). -/
def opTs : StoreOp → Option Int
  | StoreOp.create _ _ created _ => some created
  | StoreOp.append _ _ ts => some ts
  | StoreOp.rename _ _ ts => some ts
  | StoreOp.update_model _ _ ts => some ts
  | StoreOp.delete _ => none

def isDelete : StoreOp → Bool
  | StoreOp.delete _ => true
  | _ => false

/-- Appending a batch of (message, updated_at) pairs to one session. -/
def appendAll (d : StoreData) (c : String) (l : List (Json × Int)) : StoreData :=
  l.foldl (fun d mt => applyOp d (StoreOp.append c mt.1 mt.2)) d

/-!  Database read-only guard (`src/app/db.py`) and the sql tools
(`src/app/agent/sql_tools.py`).

The sqlite connection is abstracted as a state type `σ` together with an
`exec` function (the `self._execute(sql, params)` call): it returns the
column names and all result rows plus the successor connection state.
`Database.query` checks the read-only guard BEFORE touching the connection
and takes at most `max_rows` rows (`cur.fetchmany(max_rows)`). -/

/-- Python `str.lstrip()` (leading whitespace removed). -/
def pyLstrip (s : String) : String :=
  String.mk (s.data.dropWhile Char.isWhitespace)

/-- Python `str.strip()` (whitespace removed at both ends). -/
def pyStrip (s : String) : String :=
  String.mk ((s.data.dropWhile Char.isWhitespace).reverse.dropWhile Char.isWhitespace |>.reverse)

/-- Python `str.lower()`. -/
def pyLower (s : String) : String :=
  String.mk (s.data.map Char.toLower)

/-- Python `s.startswith(pre)` on the character sequences. -/
def pyStartswith (s pre : String) : Bool :=
  pre.data.isPrefixOf s.data

/-- The guard of `Database.query`:
`sql.lstrip().lower().startswith(("select", "with"))`. -/
def readOnlyOk (sql : String) : Bool :=
  pyStartswith (pyLower (pyLstrip sql)) "select" || pyStartswith (pyLower (pyLstrip sql)) "with"

/-- Result shape of `Database.query` (`QueryResult` dataclass). -/
structure QueryResult where
  columns : List String
  rows : List (List Json)
  rowcount : Nat

/-- The error message raised by `Database.query` on a non-SELECT/CTE
statement. -/
def readOnlyErr : String := "sql_query only allows read-only SELECT/CTE statements"

/-- `Database.query`: guard first, then execute under the lock and fetch at
most `max_rows` rows.  `exec` stands for `self._execute` on the shared
sqlite connection; the guard failing means `exec` is never applied, which
the theorems express by quantifying over `exec`. -/
def dbQuery {σ : Type} (exec : σ → String → (List String × List (List Json)) × σ)
    (st : σ) (sql : String) (maxRows : Nat) : Except String (QueryResult × σ) :=
  if readOnlyOk sql then
    let r := exec st sql
    let taken := r.1.2.take maxRows
    Except.ok (⟨r.1.1, taken, taken.length⟩, r.2)
  else Except.error readOnlyErr

/-- `args.get(k)` as a string with a default, used by `sql_query`
(`str(args.get("sql", "")).strip()` — the str() coercion is the identity on
the string payloads the claims concern). -/
def jgetStr (args : Json) (k : String) (dflt : String) : String :=
  match jget args k with
  | some (Json.str s) => s
  | _ => dflt

/-- `args.get("max_rows", 100)` as a number with a default. -/
def jgetNat (args : Json) (k : String) (dflt : Nat) : Nat :=
  match jget args k with
  | some (Json.num n) => n.toNat
  | _ => dflt

/-- The `sql_query` tool body (`sql_tools.py`): strip the sql text, run
`db.query`, and shape the result object.  A guard rejection propagates as
the raised `ValueError` (an `Except.error`). -/
def sql_query_tool {σ : Type} (exec : σ → String → (List String × List (List Json)) × σ)
    (st : σ) (args : Json) : Except String (Json × σ) :=
  let sql := pyStrip (jgetStr args "sql" "")
  let maxRows := jgetNat args "max_rows" 100
  match dbQuery exec st sql maxRows with
  | Except.error e => Except.error e
  | Except.ok (r, st') =>
    Except.ok (Json.obj [
      ("columns", Json.arr (r.columns.map Json.str)),
      ("rows", Json.arr (r.rows.map Json.arr)),
      ("rowcount", Json.num (r.rowcount : Int))], st')

/-!  Tool dispatch (`src/app/agent/tools.py`).

A registered capability is a name plus an invocation function; a raised
Python exception is an `Except.error` carrying the exception text. -/

/-- A registered tool: name and invocation function (`ToolSpec.func`). -/
structure MTool where
  name : String
  func : Json → Except String Json

/-- First registered tool with the given name (`for t in tools: if t.name == name`). -/
def findTool (tools : List MTool) (name : String) : Option MTool :=
  match tools with
  | [] => none
  | t :: rest => if t.name = name then some t else findTool rest name

/-- `dispatch_tool(tools, name, arguments_json)`:
`args = json.loads(arguments_json or "{}"); return t.func(args)` for the
first matching tool, else the normal result `{"error": "Unknown tool: ..."}`.
Both the JSON parse and the capability may raise. -/
def dispatch_tool (tools : List MTool) (name : String) (argumentsJson : String) :
    Except String Json :=
  match findTool tools name with
  | some t =>
    match parseJson (if argumentsJson = "" then "\x7b\x7d" else argumentsJson) with
    | Except.error e => Except.error e
    | Except.ok args => t.func args
  | none => Except.ok (Json.obj [("error", Json.str ("Unknown tool: " ++ name))])

/-!  Agent loop controller and streaming aggregator (`src/app/server.py`).

The `event_stream` coroutine runs the turn loop: a background `_producer`
consumes the provider stream into `state_box` while queueing client events;
after the stream closes, the controller either runs a tool round and
re-enters the loop, or persists the final assistant message and emits
`done`.  Wall-clock readings (`start_ms`, `end_ms`, `duration_ms`,
`llm_start_ms`, `llm_end_ms`) are passed in as explicit integers (0 where
irrelevant).  Every message appended to the working `history` list is also
persisted with the identical payload via `store.append`, so the returned
history is the record of persisted messages. -/

/-- Client-visible events of the NDJSON stream (the priming `{"type":"open"}`
line is emitted once per HTTP response, before the loop, and not modelled). -/
inductive Event where
  | chunk (text : String)
  | thinking (text : String)
  | toolResult (id : String) (name : String) (output : Json)
  | errorEv (message : String)
  | done

/-- A provider error as seen by `_producer`: the message text used for
signature matching and the optional HTTP status. -/
structure PErr where
  message : String
  status_code : Option Int

/-- Is `pat` a contiguous substring of `hay` (Python `pat in hay`)? -/
def subChars (pat : List Char) : List Char → Bool
  | [] => pat.isEmpty
  | c :: rest => pat.isPrefixOf (c :: rest) || subChars pat rest

def strContains (hay pat : String) : Bool :=
  subChars pat.data hay.data

/-- The single-quote character (ASCII 39). -/
def squo : String := String.mk [Char.ofNat 39]

/-- `is_stream_unsupported_error` (`server.py`): a fixed set of message
signatures, or HTTP status 400. -/
def is_stream_unsupported_error (e : PErr) : Bool :=
  strContains e.message "must be verified to stream this model" ||
  strContains e.message "\"param\": \"stream\"" ||
  strContains e.message (squo ++ "param" ++ squo ++ ": " ++ squo ++ "stream" ++ squo) ||
  strContains e.message "unsupported_value" ||
  e.status_code == some 400

/-- One in-progress tool-call fragment accumulator
(`{"id": ..., "name": ..., "arguments": ...}` in `state_box`). -/
structure FragState where
  id : Option String
  name : Option String
  arguments : String

/-- One tool-call fragment of a streaming delta (`delta.tool_calls[j]`):
optional position index, id, function name and function arguments text. -/
structure ToolCallDelta where
  index : Option Nat
  id : Option String
  name : Option String
  arguments : Option String

/-- The accumulator update for one fragment (`_producer`, tool-call branch):
a fresh state takes the fragment's id; a non-empty name overwrites the
stored name; non-empty argument text is appended to the buffer. -/
def applyFrag (cur : Option FragState) (tc : ToolCallDelta) : FragState :=
  let st := match cur with
    | some s => s
    | none => ⟨tc.id, none, ""⟩
  let st := match tc.name with
    | some nm => if nm = "" then st else { st with name := some nm }
    | none => st
  match tc.arguments with
    | some ap => if ap = "" then st else { st with arguments := st.arguments ++ ap }
    | none => st

/-- Lookup in the per-index accumulator dict. -/
def lookupFrag : List (Nat × FragState) → Nat → Option FragState
  | [], _ => none
  | (k, v) :: rest, i => if k = i then some v else lookupFrag rest i

/-- Dict write for the per-index accumulator (CPython dict semantics). -/
def setFrag : List (Nat × FragState) → Nat → FragState → List (Nat × FragState)
  | [], i, v => [(i, v)]
  | (k, w) :: rest, i, v =>
    if k = i then (i, v) :: rest else (k, w) :: setFrag rest i v

/-- Process one delta's `tool_calls` list (`for i, tc in enumerate(tcd)`):
the effective index is `tc.index` when present, else the enumeration
position. -/
def applyToolDeltas (st : List (Nat × FragState)) (tcd : List ToolCallDelta) :
    List (Nat × FragState) :=
  go st 0 tcd
where go (st : List (Nat × FragState)) (i : Nat) :
    List ToolCallDelta → List (Nat × FragState)
  | [] => st
  | tc :: rest =>
    let idx := tc.index.getD i
    go (setFrag st idx (applyFrag (lookupFrag st idx) tc)) (i + 1) rest

/-- Single-index accumulation: folding `applyFrag` over the fragments that
target one position index. -/
def applyFrags (st : FragState) (l : List ToolCallDelta) : FragState :=
  l.foldl (fun s tc => applyFrag (some s) tc) st

/-- The last non-empty tool name carried by a fragment list. -/
def truthyName (o : Option String) : Option String :=
  match o with
  | some s => if s = "" then none else some s
  | none => none

def lastTruthyName : List ToolCallDelta → Option String
  | [] => none
  | tc :: rest =>
    match lastTruthyName rest with
    | some n => some n
    | none => truthyName tc.name

/-- The argument text a fragment contributes (empty when absent). -/
def argText (tc : ToolCallDelta) : String :=
  match tc.arguments with
  | some a => a
  | none => ""

def argConcat : List ToolCallDelta → String
  | [] => ""
  | tc :: rest => argText tc ++ argConcat rest

/-- One content block of a list-shaped delta content
(`{"type": ..., "text": ...}`). -/
structure Block where
  btype : Option String
  text : Option String

/-- `delta.content`: either a plain string fragment or a list of blocks. -/
inductive ContentPiece where
  | text (s : String)
  | blocks (bs : List Block)

/-- `delta.reasoning`: a string, or a dict probed for
`text`/`content`/`output_text`. -/
inductive RVal where
  | rstr (s : String)
  | rdict (text : Option String) (content : Option String) (output_text : Option String)

/-- First truthy of the `text`, `content`, `output_text` keys. -/
def rdictText : RVal → Option String
  | RVal.rstr s => if s = "" then none else some s
  | RVal.rdict t c o =>
    match t with
    | some s => if s = "" then (match c with
        | some s' => if s' = "" then (match o with
            | some s'' => if s'' = "" then none else some s''
            | none => none) else some s'
        | none => match o with
            | some s'' => if s'' = "" then none else some s''
            | none => none) else some s
    | none => match c with
        | some s' => if s' = "" then (match o with
            | some s'' => if s'' = "" then none else some s''
            | none => none) else some s'
        | none => match o with
            | some s'' => if s'' = "" then none else some s''
            | none => none

/-- One streaming delta (`chunk.choices[0]`): content fragment, reasoning
fragment, tool-call fragments, and the choice's finish reason. -/
structure Delta where
  content : Option ContentPiece
  reasoning : Option RVal
  tool_calls : List ToolCallDelta
  finish_reason : Option String

/-- The producer's `state_box`. -/
structure BoxState where
  assistant_text : String
  thinking_text : String
  tool_calls_state : List (Nat × FragState)
  finish_reason : Option String
  fallback : Bool
  error : Option String

def initBox : BoxState := ⟨"", "", [], none, false, none⟩

/-- Block-list content handling: thinking-typed blocks feed the thinking
buffer and a `thinking` event; other blocks with text feed the answer buffer
and a `chunk` event. -/
def procBlocks (box : BoxState) : List Block → BoxState × List Event
  | [] => (box, [])
  | b :: rest =>
    let isThink := b.btype = some "reasoning" ∨ b.btype = some "thinking"
    let (box1, evs1) :=
      if isThink then
        match b.text with
        | some t =>
          if t = "" then (box, [])
          else ({ box with thinking_text := box.thinking_text ++ t }, [Event.thinking t])
        | none => (box, [])
      else
        match b.text with
        | some t =>
          if t = "" then (box, [])
          else ({ box with assistant_text := box.assistant_text ++ t }, [Event.chunk t])
        | none => (box, [])
    let (box2, evs2) := procBlocks box1 rest
    (box2, evs1 ++ evs2)

/-- `if getattr(c0, "finish_reason", None): state_box["finish_reason"] = ...`
(a truthy finish reason is recorded). -/
def applyFinish (box : BoxState) (fr : Option String) : BoxState :=
  match fr with
  | some f => if f = "" then box else { box with finish_reason := some f }
  | none => box

/-- The content fragment handling of `_producer`: a non-empty string piece is
appended to the answer buffer and relayed as a `chunk` event; a block list
goes through `procBlocks`. -/
def procContent (box : BoxState) : Option ContentPiece → BoxState × List Event
  | some (ContentPiece.text s) =>
    if s = "" then (box, [])
    else ({ box with assistant_text := box.assistant_text ++ s }, [Event.chunk s])
  | some (ContentPiece.blocks bs) => procBlocks box bs
  | none => (box, [])

/-- The reasoning fragment handling of `_producer`: a truthy reasoning text
feeds the thinking buffer and one `thinking` event. -/
def procReasoning (box : BoxState) : Option RVal → BoxState × List Event
  | some r =>
    (match rdictText r with
     | some t => ({ box with thinking_text := box.thinking_text ++ t }, [Event.thinking t])
     | none => (box, []))
  | none => (box, [])

/-- Process one delta exactly as `_producer` does: record a truthy finish
reason, relay content fragments as `chunk` events while accumulating the
answer buffer, relay reasoning as `thinking` events, and accumulate
tool-call fragments (no event). -/
def procDelta (box : BoxState) (d : Delta) : BoxState × List Event :=
  let s0 := applyFinish box d.finish_reason
  let s1 := procContent s0 d.content
  let s2 := procReasoning s1.1 d.reasoning
  let s3 := { s2.1 with tool_calls_state := applyToolDeltas s2.1.tool_calls_state d.tool_calls }
  (s3, s1.2 ++ s2.2)

/-- Consume a whole provider stream (the true streaming path). -/
def runStreamFrom (box : BoxState) : List Delta → BoxState × List Event
  | [] => (box, [])
  | d :: rest =>
    let (b, evs) := procDelta box d
    let (bf, evs') := runStreamFrom b rest
    (bf, evs ++ evs')

def runStream (ds : List Delta) : BoxState × List Event :=
  runStreamFrom initBox ds

/-- Structural worker for `pySlices`: the fuel bounds the number of slices
(each slice consumes at least one character). -/
def pySlicesGo (step : Nat) : Nat → List Char → List (List Char)
  | _, [] => []
  | 0, _ :: _ => []
  | fuel + 1, c :: rest =>
    (c :: rest.take (step - 1)) :: pySlicesGo step fuel (rest.drop (step - 1))

/-- Python slicing `content[i:i+step] for i in range(0, len(content), step)`. -/
def pySlices (step : Nat) (l : List Char) : List (List Char) :=
  pySlicesGo step l.length l

/-- The fallback's synthesized `chunk` events: the full text sliced into
pieces of 300 characters (`step = 300` in `_producer`). -/
def fallbackEvents (content : String) : List Event :=
  (pySlices 300 content.data).map (fun l => Event.chunk (String.mk l))

/-- A tool call of a non-streaming response message. -/
structure NSToolCall where
  id : Option String
  name : Option String
  arguments : Option String

/-- A non-streaming completion response, reduced to the fields `_producer`
reads: message content, extracted thinking, tool calls, finish reason. -/
structure NSResp where
  content : Option String
  thinking : Option String
  tool_calls : List NSToolCall
  finish_reason : Option String

/-- Python `x or ""` on an optional string. -/
def pyOrEmpty (o : Option String) : String :=
  match o with
  | some s => s
  | none => ""

/-- `tcs[i] = {...}` built by the fallback from the response's tool calls. -/
def enumFrags (l : List NSToolCall) : List (Nat × FragState) :=
  go 0 l
where go (i : Nat) : List NSToolCall → List (Nat × FragState)
  | [] => []
  | tc :: rest => (i, ⟨tc.id, tc.name, pyOrEmpty tc.arguments⟩) :: go (i + 1) rest

/-- `state_box` after a failed producer (`state_box["error"] = str(e)`). -/
def errBox (msg : String) : BoxState :=
  { initBox with error := some msg }

/-- The whole `_producer`: try the streaming call; on an error recognized as
stream-unsupported, issue one non-streaming call with the very same request
value `p` and synthesize sliced chunk events; on any other error (or a
failing retry) only record the error text.  `π` is the type of the prepared
request (`ns_kwargs`), kept abstract so that "identical parameters" is
visible in the type. -/
def producerRun {π : Type} (streamCall : π → Except PErr (List Delta))
    (nonStreamCall : π → Except String NSResp) (p : π) : BoxState × List Event :=
  match streamCall p with
  | Except.ok ds => runStream ds
  | Except.error e =>
    if is_stream_unsupported_error e then
      match nonStreamCall p with
      | Except.ok resp =>
        let content := pyOrEmpty resp.content
        ({ assistant_text := content,
           thinking_text := pyOrEmpty resp.thinking,
           tool_calls_state := enumFrags resp.tool_calls,
           finish_reason := resp.finish_reason,
           fallback := true, error := none },
         fallbackEvents content)
      | Except.error ie => (errBox ie, [])
    else (errBox e.message, [])

/-- The concatenated text of the `chunk` events in a list (client-visible
answer content). -/
def chunkChars (evs : List Event) : List Char :=
  (evs.filterMap (fun ev => match ev with
    | Event.chunk s => some s.data
    | _ => none)).flatten

/-!  Tool round and controller step (`event_stream`, `server.py` 606-695). -/

/-- A finalized tool-call record of `tool_calls_list`. -/
structure ToolCallRec where
  id : String
  name : String
  arguments : String

/-- Python `x or default` on an optional string (None and "" are falsy). -/
def pyOrStr (o : Option String) (dflt : String) : String :=
  match o with
  | some s => if s = "" then dflt else s
  | none => dflt

/-- Stable insertion into a list sorted by ascending index. -/
def insertByKey (p : Nat × FragState) : List (Nat × FragState) → List (Nat × FragState)
  | [] => [p]
  | q :: rest => if p.1 ≤ q.1 then p :: q :: rest else q :: insertByKey p rest

/-- `sorted(tool_calls_state.items())` (keys are distinct indices). -/
def sortByKey (l : List (Nat × FragState)) : List (Nat × FragState) :=
  l.foldr insertByKey []

/-- Finalization of the accumulated fragments (`server.py` 611-619):
a falsy id becomes the synthetic `call_<idx>`, a falsy name becomes `""`. -/
def toolCallsList (st : List (Nat × FragState)) : List ToolCallRec :=
  (sortByKey st).map (fun p =>
    ⟨pyOrStr p.2.id ("call_" ++ toString p.1), pyOrStr p.2.name "", p.2.arguments⟩)

/-- The record as serialized into the persisted assistant message. -/
def tcRecJson (tc : ToolCallRec) : Json :=
  Json.obj [
    ("id", Json.str tc.id),
    ("type", Json.str "function"),
    ("function", Json.obj [
      ("name", Json.str tc.name),
      ("arguments", Json.str tc.arguments)])]

/-- The persisted assistant message of a tool round (`tool_call_msg`). -/
def assistantToolMsg (tcl : List ToolCallRec) (atext ttext model : String)
    (llmStart llmEnd : Int) : Json :=
  Json.obj [
    ("role", Json.str "assistant"),
    ("tool_calls", Json.arr (tcl.map tcRecJson)),
    ("content", Json.str atext),
    ("thinking", if ttext = "" then Json.null else Json.str ttext),
    ("model", Json.str model),
    ("llm_start_ms", Json.num llmStart),
    ("llm_end_ms", Json.num llmEnd)]

/-- Is `m` a tool message produced by `sql_schema`
(`m.get("role") == "tool" and m.get("name") == "sql_schema")`? -/
def isSchemaToolMsg (m : Json) : Bool :=
  (match jget m "role" with
   | some (Json.str r) => r = "tool"
   | _ => false) &&
  (match jget m "name" with
   | some (Json.str n) => n = "sql_schema"
   | _ => false)

/-- The schema-first policy gate's history scan. -/
def hasSchema (history : List Json) : Bool :=
  history.any isSchemaToolMsg

/-- The synthesized gate result. -/
def schemaRequiredJson : Json :=
  Json.obj [
    ("error", Json.str "schema_required"),
    ("message", Json.str "Call sql_schema first to confirm available tables/columns and then re-issue sql_query.")]

/-- The structured result a caught tool exception becomes. -/
def toolExceptionJson (e : String) : Json :=
  Json.obj [
    ("error", Json.str "tool_exception"),
    ("message", Json.str e)]

/-- One tool execution of the round (`server.py` 636-656): the schema-first
gate applies to `sql_query` only; otherwise the Dispatcher runs, and a raised
exception is caught and converted to the `tool_exception` result. -/
def runOneTool (tools : List MTool) (history : List Json) (tc : ToolCallRec) : Json :=
  let r : Except String Json :=
    if tc.name = "sql_query" && !(hasSchema history) then Except.ok schemaRequiredJson
    else dispatch_tool tools tc.name tc.arguments
  match r with
  | Except.ok v => v
  | Except.error e => toolExceptionJson e

/-- The persisted tool message (`tool_msg`); its content is
`json.dumps(result)`. -/
def toolMsgOf (tc : ToolCallRec) (result : Json) (startMs endMs : Int) : Json :=
  Json.obj [
    ("role", Json.str "tool"),
    ("tool_call_id", Json.str tc.id),
    ("name", Json.str tc.name),
    ("content", Json.str (jsonToString result)),
    ("start_ms", Json.num startMs),
    ("end_ms", Json.num endMs)]

/-- The emitted `tool_result` event for one executed call. -/
def toolResultEvent (tc : ToolCallRec) (result : Json) : Event :=
  Event.toolResult tc.id tc.name result

/-- Execute the round's calls sequentially in model order: each result is
appended to the history (and persisted) before the next call runs, and one
`tool_result` event is emitted per call. -/
def execTools (tools : List MTool) (history : List Json) :
    List ToolCallRec → List Json × List Event
  | [] => (history, [])
  | tc :: rest =>
    let r := runOneTool tools history tc
    let m := toolMsgOf tc r 0 0
    let step := execTools tools (history ++ [m]) rest
    (step.1, toolResultEvent tc r :: step.2)

/-- Outcome of one pass of the outer `while True` loop: either re-enter the
model loop with the grown history (`continue`), or terminate the turn
(`break` after `done`). -/
inductive StepOut where
  | cont (history : List Json) (events : List Event)
  | finish (history : List Json) (events : List Event)

def StepOut.isCont : StepOut → Bool
  | StepOut.cont _ _ => true
  | StepOut.finish _ _ => false

def StepOut.events : StepOut → List Event
  | StepOut.cont _ evs => evs
  | StepOut.finish _ evs => evs

def StepOut.history : StepOut → List Json
  | StepOut.cont h _ => h
  | StepOut.finish h _ => h

/-- The persisted final assistant message (`final_msg`). -/
def finalAssistantMsg (atext ttext model : String) (durationMs : Int) : Json :=
  Json.obj [
    ("role", Json.str "assistant"),
    ("content", Json.str atext),
    ("duration_ms", Json.num durationMs),
    ("thinking", if ttext = "" then Json.null else Json.str ttext),
    ("model", Json.str model)]

/-- Finish reasons that trigger a tool round. -/
def toolFinishReasons : List String := ["tool_calls", "tool", "function_call"]

/-- The controller's decision after the producer finishes (`server.py`
598-695).  Note that it reads only `assistant_text`, `thinking_text`,
`tool_calls_state` and `finish_reason` from the box: the `error` field set
by a failed producer is never consulted. -/
def afterProducer (tools : List MTool) (history : List Json) (box : BoxState)
    (model : String) (llmStart llmEnd durationMs : Int) : StepOut :=
  if !box.tool_calls_state.isEmpty &&
      (match box.finish_reason with
       | some fr => toolFinishReasons.contains fr
       | none => false) then
    let tcl := toolCallsList box.tool_calls_state
    let amsg := assistantToolMsg tcl box.assistant_text box.thinking_text model llmStart llmEnd
    let step := execTools tools (history ++ [amsg]) tcl
    StepOut.cont step.1 step.2
  else
    StepOut.finish (history ++ [finalAssistantMsg box.assistant_text box.thinking_text model durationMs])
      [Event.done]

/-- One full pass of the turn loop: run the producer, relay its events, then
decide; the pass's client events are the producer's followed by the
controller's. -/
def loopIter {π : Type} (tools : List MTool) (streamCall : π → Except PErr (List Delta))
    (nonStreamCall : π → Except String NSResp) (p : π) (history : List Json)
    (model : String) : StepOut :=
  let pr := producerRun streamCall nonStreamCall p
  match afterProducer tools history pr.1 model 0 0 0 with
  | StepOut.cont h evs => StepOut.cont h (pr.2 ++ evs)
  | StepOut.finish h evs => StepOut.finish h (pr.2 ++ evs)

/-!  Theorems. -/

theorem getGo_set (l : List (String × Session)) (id c : String) (s : Session) :
    getSession.go (setSessionList l id s) c
      = if c = id then some s else getSession.go l c := by
  induction l with
  | nil =>
    by_cases h : c = id
    · subst h; simp [setSessionList, getSession.go]
    · simp only [setSessionList, getSession.go]
      rw [if_neg (fun hh => h hh.symm), if_neg h]
  | cons kv rest ih =>
    obtain ⟨k, v⟩ := kv
    simp only [setSessionList]
    by_cases hk : k = id
    · rw [if_pos hk]
      subst hk
      by_cases hc : c = k
      · subst hc; simp [getSession.go]
      · simp only [getSession.go]
        rw [if_neg (fun hh : k = c => hc hh.symm), if_neg hc,
          if_neg (fun hh : k = c => hc hh.symm)]
    · rw [if_neg hk]
      simp only [getSession.go, ih]
      by_cases hc : c = id
      · subst hc
        rw [if_pos rfl, if_neg (fun hh : k = c => hk hh), if_pos rfl]
      · rw [if_neg hc, if_neg hc]

theorem getSession_set (d : StoreData) (id c : String) (s : Session) :
    getSession (setSession d id s) c = if c = id then some s else getSession d c := by
  unfold getSession setSession
  exact getGo_set d.sessions id c s

theorem uAtOpt_set (d : StoreData) (id c : String) (s : Session) :
    uAtOpt (setSession d id s) c
      = if c = id then some s.updated_at else uAtOpt d c := by
  unfold uAtOpt
  rw [getSession_set]
  by_cases h : c = id <;> simp [h]

theorem get_messages_append_one (d : StoreData) (c : String) (m : Json) (t : Int) :
    get_messages (applyOp d (StoreOp.append c m t)) c = get_messages d c ++ [m] := by
  cases h : getSession d c with
  | some s => simp [applyOp, get_messages, h, getSession_set]
  | none => simp [applyOp, get_messages, h, getSession_set]

/-- Claim C2: for every session id and every sequence of appended messages,
`get_messages` afterwards returns the previously stored messages followed by
exactly the appended messages in append order; in particular, on a fresh
(absent) session it returns exactly the appended messages: `append` never
loses, duplicates, or reorders messages. -/
theorem c2_append_get_messages (d : StoreData) (c : String) (l : List (Json × Int)) :
    get_messages (appendAll d c l) c = get_messages d c ++ l.map Prod.fst ∧
    (getSession d c = none → get_messages (appendAll d c l) c = l.map Prod.fst) := by
  have main : ∀ (l : List (Json × Int)) (d : StoreData),
      get_messages (appendAll d c l) c = get_messages d c ++ l.map Prod.fst := by
    intro l
    induction l with
    | nil => intro d; simp [appendAll]
    | cons mt rest ih =>
      intro d
      have step : appendAll d c (mt :: rest)
          = appendAll (applyOp d (StoreOp.append c mt.1 mt.2)) c rest := by
        simp [appendAll]
      rw [step, ih, get_messages_append_one]
      simp
  refine ⟨main l d, fun habs => ?_⟩
  rw [main l d]
  simp [get_messages, habs]

/-- Claim C2 witness: appending two concrete messages to a fresh session
returns exactly the two messages in order. -/
theorem c2_append_get_messages_witness :
    get_messages (appendAll emptyStore "s1"
      [(Json.str "m1", 5), (Json.str "m2", 6)]) "s1"
      = [Json.str "m1", Json.str "m2"] :=
  (c2_append_get_messages emptyStore "s1"
    [(Json.str "m1", 5), (Json.str "m2", 6)]).2 (by rfl)

/-- Claim C9 (amended): each of create, append, rename and update_model
stamps the session with its caller-supplied timestamp, so `updated_at` is
monotonically non-decreasing provided every operation's timestamamp argument
is at least the session's current `updated_at` (which holds for the HTTP
layer, which always passes the current wall-clock time); the store itself
does not enforce this, and a smaller timestamp argument does decrease the
stored value. -/
theorem c9_updated_at_monotone_amended (d : StoreData) (c : String) (op : StoreOp)
    (hdel : isDelete op = false)
    (hts : ∀ t, opTs op = some t → ∀ u, uAtOpt d c = some u → u ≤ t) :
    ∀ u u', uAtOpt d c = some u → uAtOpt (applyOp d op) c = some u' → u ≤ u' := by
  intro u u' hu hu'
  cases op with
  | create id title created model =>
    cases hcase : getSession d id with
    | some s =>
      simp only [applyOp, hcase] at hu'
      rw [hu] at hu'
      exact le_of_eq (Option.some.inj hu')
    | none =>
      simp only [applyOp, hcase] at hu'
      rw [uAtOpt_set] at hu'
      by_cases hc : c = id
      · subst hc
        simp [uAtOpt, hcase] at hu
      · rw [if_neg hc, hu] at hu'
        exact le_of_eq (Option.some.inj hu')
  | append id msg ts =>
    cases hcase : getSession d id with
    | some s =>
      simp only [applyOp, hcase] at hu'
      rw [uAtOpt_set] at hu'
      by_cases hc : c = id
      · subst hc
        rw [if_pos rfl] at hu'
        have hu'' : u' = ts := (Option.some.inj hu').symm
        rw [hu'']
        exact hts ts rfl u hu
      · rw [if_neg hc, hu] at hu'
        exact le_of_eq (Option.some.inj hu')
    | none =>
      simp only [applyOp, hcase] at hu'
      rw [uAtOpt_set] at hu'
      by_cases hc : c = id
      · subst hc
        simp [uAtOpt, hcase] at hu
      · rw [if_neg hc, hu] at hu'
        exact le_of_eq (Option.some.inj hu')
  | rename id title ts =>
    cases hcase : getSession d id with
    | some s =>
      simp only [applyOp, hcase] at hu'
      rw [uAtOpt_set] at hu'
      by_cases hc : c = id
      · subst hc
        rw [if_pos rfl] at hu'
        have hu'' : u' = ts := (Option.some.inj hu').symm
        rw [hu'']
        exact hts ts rfl u hu
      · rw [if_neg hc, hu] at hu'
        exact le_of_eq (Option.some.inj hu')
    | none =>
      simp only [applyOp, hcase] at hu'
      rw [hu] at hu'
      exact le_of_eq (Option.some.inj hu')
  | update_model id m ts =>
    cases hcase : getSession d id with
    | some s =>
      simp only [applyOp, hcase] at hu'
      rw [uAtOpt_set] at hu'
      by_cases hc : c = id
      · subst hc
        rw [if_pos rfl] at hu'
        have hu'' : u' = ts := (Option.some.inj hu').symm
        rw [hu'']
        exact hts ts rfl u hu
      · rw [if_neg hc, hu] at hu'
        exact le_of_eq (Option.some.inj hu')
    | none =>
      simp only [applyOp, hcase] at hu'
      rw [hu] at hu'
      exact le_of_eq (Option.some.inj hu')
  | delete id => simp [isDelete] at hdel

/-- Claim C9 witness: a rename with a larger timestamp does not decrease
`updated_at` of a freshly created session. -/
theorem c9_updated_at_monotone_amended_witness :
    uAtOpt (applyOp emptyStore (StoreOp.create "s" "t" 10 none)) "s" = some 10 ∧
    uAtOpt (applyOp (applyOp emptyStore (StoreOp.create "s" "t" 10 none))
      (StoreOp.rename "s" "x" 12)) "s" = some 12 ∧
    (10 : Int) ≤ 12 :=
  ⟨rfl, rfl,
   c9_updated_at_monotone_amended
    (applyOp emptyStore (StoreOp.create "s" "t" 10 none)) "s"
    (StoreOp.rename "s" "x" 12) (by rfl)
    (by intro t ht u hu
        have ht2 : some (12 : Int) = some t := ht
        have hu2 : some (10 : Int) = some u := hu
        have h1 : t = 12 := (Option.some.inj ht2).symm
        have h2 : u = 10 := (Option.some.inj hu2).symm
        omega)
    10 12 rfl rfl⟩

/-- Claim C9 counterexample: the claim as stated is false — a rename whose
timestamp argument is smaller than the stored value makes `updated_at`
decrease (10 to 5). -/
theorem c9_updated_at_decrease_counterexample :
    uAtOpt (applyOp emptyStore (StoreOp.create "s" "t" 10 none)) "s" = some 10 ∧
    uAtOpt (applyOp (applyOp emptyStore (StoreOp.create "s" "t" 10 none))
      (StoreOp.rename "s" "x" 5)) "s" = some 5 ∧
    ¬ ((10 : Int) ≤ 5) := by
  refine ⟨rfl, rfl, by omega⟩

/-- Claim C10: for every sql string whose left-stripped, lowercased text does
not start with "select" or "with", `Database.query` returns the ValueError
before executing anything against the connection — the outcome is the same
error for every possible connection behaviour `exec`, so no statement is
submitted and the database state is untouched; the `sql_query` capability
then propagates the same rejection for its stripped sql argument. -/
theorem c10_readonly_guard (σ : Type)
    (exec exec' : σ → String → (List String × List (List Json)) × σ)
    (st : σ) (sql : String) (maxRows : Nat) (args : Json) :
    (readOnlyOk sql = false →
      dbQuery exec st sql maxRows = Except.error readOnlyErr ∧
      dbQuery exec st sql maxRows = dbQuery exec' st sql maxRows) ∧
    (readOnlyOk (pyStrip (jgetStr args "sql" "")) = false →
      sql_query_tool exec st args = Except.error readOnlyErr) := by
  constructor
  · intro h
    constructor
    · simp [dbQuery, h]
    · simp [dbQuery, h]
  · intro h
    simp [sql_query_tool, dbQuery, h]

/-- Claim C10 witness: a DROP statement is rejected with the read-only error,
uniformly in the connection, and so is a DELETE passed to the sql_query
capability. -/
theorem c10_readonly_guard_witness :
    dbQuery (σ := Nat) (fun s _ => (([], []), s + 1)) 0 "DROP TABLE users" 100
        = Except.error readOnlyErr ∧
    sql_query_tool (σ := Nat) (fun s _ => (([], []), s + 1)) 0
        (Json.obj [("sql", Json.str " DELETE FROM t")])
        = Except.error readOnlyErr := by
  have h := c10_readonly_guard Nat (fun s _ => (([], []), s + 1)) (fun s _ => (([], []), s))
    0 "DROP TABLE users" 100 (Json.obj [("sql", Json.str " DELETE FROM t")])
  exact ⟨(h.1 (by rfl)).1, h.2 (by rfl)⟩

/-- Claim C7 counterexample: the claim as stated is false — dispatching a
registered tool with the non-JSON argument string results in the raised
parse error, not in the capability being invoked with an empty argument
object. -/
theorem c7_invalid_json_counterexample :
    dispatch_tool [⟨"echo", fun v => Except.ok (Json.obj [("args", v)])⟩]
        "echo" "\x7bbad" = Except.error "expected property name" ∧
    dispatch_tool [⟨"echo", fun v => Except.ok (Json.obj [("args", v)])⟩]
        "echo" "\x7bbad" ≠ Except.ok (Json.obj [("args", Json.obj [])]) := by
  refine ⟨rfl, ?_⟩
  intro h
  rw [show dispatch_tool [⟨"echo", fun v => Except.ok (Json.obj [("args", v)])⟩]
      "echo" "\x7bbad" = Except.error "expected property name" from rfl] at h
  exact Except.noConfusion h

/-- Claim C7 (amended): only an EMPTY (falsy) argument string is replaced by
the empty object before parsing — `json.loads(arguments_json or "...")` —
so an empty string leads to invoking the capability with the empty argument
object, while a non-empty argument string that fails to parse as JSON makes
`dispatch_tool` raise the parse error (which the controller catches and
converts to a `tool_exception` result). -/
theorem c7_empty_args_amended (tools : List MTool) (t : MTool) (name args : String)
    (hfind : findTool tools name = some t) :
    dispatch_tool tools name "" = t.func (Json.obj []) ∧
    (∀ e, args ≠ "" → parseJson args = Except.error e →
      dispatch_tool tools name args = Except.error e) := by
  constructor
  · simp [dispatch_tool, hfind]
    rfl
  · intro e hne hperr
    simp [dispatch_tool, hfind, if_neg hne, hperr]

/-- Claim C7 witness: with a concrete registry, an empty argument string
invokes the capability on the empty object, and the bad argument string
raises the parse error. -/
theorem c7_empty_args_amended_witness :
    dispatch_tool [⟨"t1", fun v => Except.ok (Json.arr [v])⟩] "t1" ""
        = Except.ok (Json.arr [Json.obj []]) ∧
    dispatch_tool [⟨"t1", fun v => Except.ok (Json.arr [v])⟩] "t1" "?bad"
        = Except.error "unexpected character" := by
  have h := c7_empty_args_amended [⟨"t1", fun v => Except.ok (Json.arr [v])⟩]
    ⟨"t1", fun v => Except.ok (Json.arr [v])⟩ "t1" "?bad" (by rfl)
  refine ⟨?_, ?_⟩
  · rw [h.1]
  · exact h.2 "unexpected character" (by simp) (by rfl)

theorem applyFrag_arguments (st : FragState) (tc : ToolCallDelta) :
    (applyFrag (some st) tc).arguments = st.arguments ++ argText tc := by
  rcases tc with ⟨idx, tid, nm, ar⟩
  cases nm with
  | none =>
    cases ar with
    | none => simp [applyFrag, argText, String.append_empty]
    | some a =>
      by_cases ha : a = "" <;> simp [applyFrag, argText, ha, String.append_empty]
  | some n =>
    by_cases hn : n = "" <;>
      (cases ar with
       | none => simp [applyFrag, argText, hn, String.append_empty]
       | some a =>
         by_cases ha : a = "" <;> simp [applyFrag, argText, hn, ha, String.append_empty])

theorem applyFrag_name (st : FragState) (tc : ToolCallDelta) :
    (applyFrag (some st) tc).name =
      (match truthyName tc.name with
       | some n => some n
       | none => st.name) := by
  rcases tc with ⟨idx, tid, nm, ar⟩
  cases nm with
  | none =>
    cases ar with
    | none => simp [applyFrag, truthyName]
    | some a =>
      by_cases ha : a = "" <;> simp [applyFrag, truthyName, ha]
  | some n =>
    by_cases hn : n = "" <;>
      (cases ar with
       | none => simp [applyFrag, truthyName, hn]
       | some a =>
         by_cases ha : a = "" <;> simp [applyFrag, truthyName, hn, ha])

theorem applyFrags_arguments (l : List ToolCallDelta) (st : FragState) :
    (applyFrags st l).arguments = st.arguments ++ argConcat l := by
  induction l generalizing st with
  | nil => simp [applyFrags, argConcat, String.append_empty]
  | cons tc rest ih =>
    have step : applyFrags st (tc :: rest) = applyFrags (applyFrag (some st) tc) rest := by
      simp [applyFrags]
    rw [step, ih, applyFrag_arguments, argConcat, String.append_assoc]

theorem applyFrags_name (l : List ToolCallDelta) (st : FragState) :
    (applyFrags st l).name =
      (match lastTruthyName l with
       | some n => some n
       | none => st.name) := by
  induction l generalizing st with
  | nil => simp [applyFrags, lastTruthyName]
  | cons tc rest ih =>
    have step : applyFrags st (tc :: rest) = applyFrags (applyFrag (some st) tc) rest := by
      simp [applyFrags]
    rw [step, ih, applyFrag_name]
    simp only [lastTruthyName]
    cases lastTruthyName rest with
    | some n => rfl
    | none => rfl

/-- Claim C5 counterexample: the claim as stated is false — the tool name is
NOT immutable after first sight: a later delta at the same position index
that carries a non-empty name overwrites it ("a" becomes "b"). -/
theorem c5_name_overwrite_counterexample :
    (runStream [⟨none, none, [⟨some 0, some "c1", some "a", none⟩], none⟩]).1.tool_calls_state
      = [(0, ⟨some "c1", some "a", ""⟩)] ∧
    (runStream [⟨none, none, [⟨some 0, some "c1", some "a", none⟩], none⟩,
                ⟨none, none, [⟨some 0, none, some "b", none⟩], none⟩]).1.tool_calls_state
      = [(0, ⟨some "c1", some "b", ""⟩)] ∧
    "b" ≠ "a" := by
  refine ⟨rfl, rfl, by decide⟩

/-- Claim C5 (amended): during streaming, tool-call fragments are accumulated
per position index; argument text fragments are concatenated in arrival
order, and the stored tool name is the LAST non-empty name fragment seen
(hence unchanged whenever later deltas carry no name — providers send the
name only on the first fragment); consequently the argument JSON split into
the fragments '\x7b"sq', 'l":"SELECT', ' 1"\x7d' reassembles into the exact
full argument string, which parses to the object with "sql" mapped to
"SELECT 1" before dispatch. -/
theorem c5_fragment_accumulation_amended :
    (∀ (st : FragState) (l : List ToolCallDelta),
      (applyFrags st l).arguments = st.arguments ++ argConcat l) ∧
    (∀ (st : FragState) (l : List ToolCallDelta),
      (applyFrags st l).name =
        (match lastTruthyName l with
         | some n => some n
         | none => st.name)) ∧
    (runStream [⟨none, none, [⟨some 0, some "call_9", some "sql_query", some "\x7b\"sq"⟩], none⟩,
                ⟨none, none, [⟨some 0, none, none, some "l\":\"SELECT"⟩], none⟩,
                ⟨none, none, [⟨some 0, none, none, some " 1\"\x7d"⟩], some "tool_calls"⟩]).1.tool_calls_state
      = [(0, ⟨some "call_9", some "sql_query", "\x7b\"sql\":\"SELECT 1\"\x7d"⟩)] ∧
    toolCallsList [(0, (⟨some "call_9", some "sql_query", "\x7b\"sql\":\"SELECT 1\"\x7d"⟩ : FragState))]
      = [⟨"call_9", "sql_query", "\x7b\"sql\":\"SELECT 1\"\x7d"⟩] ∧
    parseJson "\x7b\"sql\":\"SELECT 1\"\x7d"
      = Except.ok (Json.obj [("sql", Json.str "SELECT 1")]) := by
  exact ⟨fun st l => applyFrags_arguments l st,
         fun st l => applyFrags_name l st, rfl, rfl, rfl⟩

/-- Claim C3: when a `sql_query` call is about to be dispatched and the
session history contains no tool message named `sql_schema`, the dispatch is
skipped (the outcome is independent of the registered capabilities), the
synthesized `schema_required` result is treated as the tool's output — one
persisted tool message whose content is its serialization, and one emitted
`tool_result` event — and the turn continues normally: the tool branch of
the controller always re-enters the model loop. -/
theorem c3_schema_gate (tools tools' : List MTool) (history : List Json)
    (tc : ToolCallRec) (hname : tc.name = "sql_query")
    (hnos : hasSchema history = false) :
    runOneTool tools history tc = schemaRequiredJson ∧
    runOneTool tools' history tc = runOneTool tools history tc ∧
    execTools tools history [tc]
      = (history ++ [toolMsgOf tc schemaRequiredJson 0 0],
         [toolResultEvent tc schemaRequiredJson]) ∧
    (∀ (box : BoxState) (model : String) (a b c : Int),
      box.tool_calls_state.isEmpty = false →
      box.finish_reason = some "tool_calls" →
      (afterProducer tools history box model a b c).isCont = true) := by
  have hone : ∀ ts : List MTool, runOneTool ts history tc = schemaRequiredJson := by
    intro ts
    simp [runOneTool, hname, hnos]
  refine ⟨hone tools, by rw [hone tools, hone tools'], ?_, ?_⟩
  · simp [execTools, hone tools]
  · intro box model a b c h1 h2
    simp [afterProducer, h1, h2, toolFinishReasons, StepOut.isCont]

/-- Claim C3 witness: a concrete `sql_query` call against an empty history is
gated to the `schema_required` result, uniformly in the registry, and a tool
round continues the loop. -/
theorem c3_schema_gate_witness :
    runOneTool [] [] ⟨"id1", "sql_query", "\x7b\x7d"⟩ = schemaRequiredJson ∧
    (afterProducer [] [] ⟨"", "", [(0, ⟨none, some "sql_query", "\x7b\x7d"⟩)],
        some "tool_calls", false, none⟩ "m" 0 0 0).isCont = true := by
  have h := c3_schema_gate [] [⟨"sql_query", fun _ => Except.ok Json.null⟩] []
    ⟨"id1", "sql_query", "\x7b\x7d"⟩ (by rfl) (by rfl)
  exact ⟨h.1, h.2.2.2 ⟨"", "", [(0, ⟨none, some "sql_query", "\x7b\x7d"⟩)],
    some "tool_calls", false, none⟩ "m" 0 0 0 (by rfl) (by rfl)⟩

/-- Claim C6: for every tool call of a round, an exception raised by the
underlying capability during dispatch is caught and converted into the
structured `tool_exception` result, which is persisted as the tool message
and emitted as the call's `tool_result` event; tool execution is a total
function of the round (no exception reaches the controller) and a tool
failure never aborts the turn — the tool branch always re-enters the model
loop. -/
theorem c6_tool_exception_capture (tools : List MTool) (history : List Json)
    (tc : ToolCallRec) (e : String)
    (hgate : tc.name = "sql_query" → hasSchema history = true)
    (hdisp : dispatch_tool tools tc.name tc.arguments = Except.error e) :
    runOneTool tools history tc = toolExceptionJson e ∧
    execTools tools history [tc]
      = (history ++ [toolMsgOf tc (toolExceptionJson e) 0 0],
         [toolResultEvent tc (toolExceptionJson e)]) ∧
    (∀ (history' : List Json) (box : BoxState) (model : String) (a b c : Int),
      box.tool_calls_state.isEmpty = false →
      box.finish_reason = some "tool_calls" →
      (afterProducer tools history' box model a b c).isCont = true) := by
  have hone : runOneTool tools history tc = toolExceptionJson e := by
    by_cases hq : tc.name = "sql_query"
    · rw [hq] at hdisp
      simp [runOneTool, hq, hgate hq, hdisp]
    · simp [runOneTool, hq, hdisp]
  refine ⟨hone, by simp [execTools, hone], ?_⟩
  intro history' box model a b c h1 h2
  simp [afterProducer, h1, h2, toolFinishReasons, StepOut.isCont]

/-- Claim C6 witness: a capability that raises is surfaced as the
`tool_exception` result and the round still produces its tool message and
event. -/
theorem c6_tool_exception_capture_witness :
    runOneTool [⟨"boom", fun _ => Except.error "boom failed"⟩] []
        ⟨"id1", "boom", ""⟩ = toolExceptionJson "boom failed" ∧
    execTools [⟨"boom", fun _ => Except.error "boom failed"⟩] [] [⟨"id1", "boom", ""⟩]
      = ([toolMsgOf ⟨"id1", "boom", ""⟩ (toolExceptionJson "boom failed") 0 0],
         [toolResultEvent ⟨"id1", "boom", ""⟩ (toolExceptionJson "boom failed")]) := by
  have h := c6_tool_exception_capture [⟨"boom", fun _ => Except.error "boom failed"⟩]
    [] ⟨"id1", "boom", ""⟩ "boom failed"
    (by intro hq; exact absurd hq (by decide))
    (by rfl)
  refine ⟨h.1, ?_⟩
  have h2 := h.2.1
  simpa using h2

theorem pySlicesGo_flatten (step : Nat) :
    ∀ (fuel : Nat) (l : List Char), l.length ≤ fuel → (pySlicesGo step fuel l).flatten = l := by
  intro fuel
  induction fuel with
  | zero =>
    intro l hl
    have hnil : l = [] := List.eq_nil_of_length_eq_zero (Nat.le_zero.mp hl)
    subst hnil
    simp [pySlicesGo]
  | succ n ih =>
    intro l hl
    cases l with
    | nil => simp [pySlicesGo]
    | cons c rest =>
      have hdrop : (rest.drop (step - 1)).length ≤ n := by
        simp only [List.length_drop]
        simp only [List.length_cons] at hl
        omega
      rw [pySlicesGo]
      simp only [List.flatten_cons]
      rw [ih _ hdrop]
      simp [List.take_append_drop]

theorem pySlices_flatten (step : Nat) (l : List Char) :
    (pySlices step l).flatten = l :=
  pySlicesGo_flatten step l.length l le_rfl

theorem pySlicesGo_sizes (step : Nat) (hstep : 1 ≤ step) :
    ∀ (fuel : Nat) (l : List Char),
      ∀ ch ∈ pySlicesGo step fuel l, 0 < ch.length ∧ ch.length ≤ step := by
  intro fuel
  induction fuel with
  | zero =>
    intro l ch hch
    cases l with
    | nil => simp [pySlicesGo] at hch
    | cons c rest => simp [pySlicesGo] at hch
  | succ n ih =>
    intro l ch hch
    cases l with
    | nil => simp [pySlicesGo] at hch
    | cons c rest =>
      rw [pySlicesGo] at hch
      rcases List.mem_cons.mp hch with hch | hch
      · subst hch
        constructor
        · simp
        · simp only [List.length_cons, List.length_take]
          omega
      · exact ih _ ch hch

theorem chunkChars_append (a b : List Event) :
    chunkChars (a ++ b) = chunkChars a ++ chunkChars b := by
  simp [chunkChars, List.filterMap_append]

theorem procBlocks_chunks (bs : List Block) (box : BoxState) :
    (procBlocks box bs).1.assistant_text.data
      = box.assistant_text.data ++ chunkChars (procBlocks box bs).2 := by
  induction bs generalizing box with
  | nil => simp [procBlocks, chunkChars]
  | cons b rest ih =>
    by_cases hth : (b.btype = some "reasoning" ∨ b.btype = some "thinking")
    · cases htx : b.text with
      | none =>
        simp only [procBlocks, if_pos hth, htx]
        exact ih box
      | some t =>
        by_cases hte : t = ""
        · simp only [procBlocks, if_pos hth, htx, if_pos hte]
          exact ih box
        · simp only [procBlocks, if_pos hth, htx, if_neg hte]
          rw [chunkChars_append]
          have : chunkChars [Event.thinking t] = [] := by simp [chunkChars]
          rw [this]
          simpa using ih { box with thinking_text := box.thinking_text ++ t }
    · cases htx : b.text with
      | none =>
        simp only [procBlocks, if_neg hth, htx]
        exact ih box
      | some t =>
        by_cases hte : t = ""
        · simp only [procBlocks, if_neg hth, htx, if_pos hte]
          exact ih box
        · simp only [procBlocks, if_neg hth, htx, if_neg hte]
          rw [chunkChars_append]
          have hone : chunkChars [Event.chunk t] = t.data := by simp [chunkChars]
          rw [hone]
          have := ih { box with assistant_text := box.assistant_text ++ t }
          simp only at this
          rw [this]
          simp [String.data_append]

theorem applyFinish_assistant (box : BoxState) (fr : Option String) :
    (applyFinish box fr).assistant_text = box.assistant_text := by
  cases fr with
  | none => rfl
  | some f => by_cases hf : f = "" <;> simp [applyFinish, hf]

theorem procContent_chunks (box : BoxState) (c : Option ContentPiece) :
    (procContent box c).1.assistant_text.data
      = box.assistant_text.data ++ chunkChars (procContent box c).2 := by
  cases c with
  | none => simp [procContent, chunkChars]
  | some piece =>
    cases piece with
    | text s =>
      by_cases hs : s = ""
      · simp [procContent, hs, chunkChars]
      · simp [procContent, hs, chunkChars, String.data_append]
    | blocks bs => exact procBlocks_chunks bs box

theorem procReasoning_chunks (box : BoxState) (r : Option RVal) :
    (procReasoning box r).1.assistant_text = box.assistant_text ∧
    chunkChars (procReasoning box r).2 = [] := by
  cases r with
  | none => simp [procReasoning, chunkChars]
  | some rv =>
    cases hr : rdictText rv with
    | none => simp [procReasoning, hr, chunkChars]
    | some t => simp [procReasoning, hr, chunkChars]

theorem procDelta_chunks (box : BoxState) (d : Delta) :
    (procDelta box d).1.assistant_text.data
      = box.assistant_text.data ++ chunkChars (procDelta box d).2 := by
  rcases d with ⟨content, reasoning, tcs, fr⟩
  simp only [procDelta, chunkChars_append]
  rw [(procReasoning_chunks (procContent (applyFinish box fr) content).1 reasoning).1]
  rw [(procReasoning_chunks (procContent (applyFinish box fr) content).1 reasoning).2]
  rw [procContent_chunks, applyFinish_assistant]
  simp

theorem runStreamFrom_chunks (ds : List Delta) (box : BoxState) :
    (runStreamFrom box ds).1.assistant_text.data
      = box.assistant_text.data ++ chunkChars (runStreamFrom box ds).2 := by
  induction ds generalizing box with
  | nil => simp [runStreamFrom, chunkChars]
  | cons d rest ih =>
    simp only [runStreamFrom]
    rw [chunkChars_append]
    have h1 := procDelta_chunks box d
    have h2 := ih (procDelta box d).1
    rw [h2, h1]
    simp [List.append_assoc]

theorem chunkChars_map_chunk (l : List (List Char)) :
    chunkChars (l.map (fun c => Event.chunk (String.mk c))) = l.flatten := by
  induction l with
  | nil => simp [chunkChars]
  | cons c rest ih =>
    simp only [List.map_cons, List.flatten_cons, chunkChars, List.filterMap_cons] at ih ⊢
    rw [ih]

theorem chunkChars_fallback (s : String) :
    chunkChars (fallbackEvents s) = s.data := by
  unfold fallbackEvents
  rw [chunkChars_map_chunk, pySlices_flatten]

/-- Claim C8: on a recognized "streaming not permitted" error, the producer
issues one non-streaming request with the very same request value and emits
`chunk` events that are the full returned text sliced into fixed-size
(300-character) pieces in order; the concatenation of the emitted chunk text
equals the full returned text, and every native streaming run with the same
final assistant text has the same concatenated chunk content — the fallback
is indistinguishable in content, only chunk boundaries may differ. -/
theorem c8_fallback_equivalence {π : Type} (streamCall : π → Except PErr (List Delta))
    (nonStreamCall : π → Except String NSResp) (p : π) (e : PErr) (resp : NSResp)
    (hs : streamCall p = Except.error e)
    (hrec : is_stream_unsupported_error e = true)
    (hns : nonStreamCall p = Except.ok resp) :
    producerRun streamCall nonStreamCall p
      = ({ assistant_text := pyOrEmpty resp.content,
           thinking_text := pyOrEmpty resp.thinking,
           tool_calls_state := enumFrags resp.tool_calls,
           finish_reason := resp.finish_reason,
           fallback := true, error := none },
         fallbackEvents (pyOrEmpty resp.content)) ∧
    chunkChars (fallbackEvents (pyOrEmpty resp.content)) = (pyOrEmpty resp.content).data ∧
    (∀ ev ∈ fallbackEvents (pyOrEmpty resp.content),
      ∃ s, ev = Event.chunk s ∧ 0 < s.data.length ∧ s.data.length ≤ 300) ∧
    (∀ ds : List Delta,
      (runStream ds).1.assistant_text = pyOrEmpty resp.content →
      chunkChars (runStream ds).2 = chunkChars (fallbackEvents (pyOrEmpty resp.content))) := by
  refine ⟨?_, chunkChars_fallback _, ?_, ?_⟩
  · simp [producerRun, hs, hrec, hns]
  · intro ev hev
    unfold fallbackEvents at hev
    rcases List.mem_map.mp hev with ⟨l, hl, hevl⟩
    refine ⟨String.mk l, hevl.symm, ?_⟩
    have := pySlicesGo_sizes 300 (by omega) (pyOrEmpty resp.content).data.length
      (pyOrEmpty resp.content).data l hl
    simpa using this
  · intro ds hds
    have h1 := runStreamFrom_chunks ds initBox
    have h2 : (runStream ds).1.assistant_text.data = (pyOrEmpty resp.content).data := by
      rw [show (runStream ds).1.assistant_text = pyOrEmpty resp.content from hds]
    unfold runStream at h2 h1 ⊢
    rw [h1] at h2
    simp only [initBox] at h2
    rw [chunkChars_fallback]
    simpa using h2

/-- Claim C8 witness: a concrete verification-gated streaming error triggers
the fallback, whose chunk events concatenate exactly to the returned text. -/
theorem c8_fallback_equivalence_witness :
    producerRun (π := Unit)
        (fun _ => Except.error ⟨"Your organization must be verified to stream this model", none⟩)
        (fun _ => Except.ok ⟨some "hello world", none, [], some "stop"⟩) ()
      = ({ assistant_text := "hello world", thinking_text := "",
           tool_calls_state := [], finish_reason := some "stop",
           fallback := true, error := none },
         [Event.chunk "hello world"]) ∧
    chunkChars (fallbackEvents (pyOrEmpty (some "hello world"))) = "hello world".data := by
  have h := c8_fallback_equivalence (π := Unit)
    (fun _ => Except.error ⟨"Your organization must be verified to stream this model", none⟩)
    (fun _ => Except.ok ⟨some "hello world", none, [], some "stop"⟩) ()
    ⟨"Your organization must be verified to stream this model", none⟩
    ⟨some "hello world", none, [], some "stop"⟩
    rfl (by decide) rfl
  refine ⟨?_, h.2.1⟩
  rw [h.1]
  rfl

/-- Claim C4 (code bug exhibit): when the streaming call fails with an error
that is NOT a recognized streaming-unsupported signature (here a 500
"internal server error"), the producer only records the text in the box's
`error` field — which the controller never reads — so the turn does NOT emit
an `error` event: it persists an empty final assistant message and emits
`done`, contradicting the specified single-`error`-no-`done` behaviour. -/
theorem c4_unrecognized_stream_error_emits_done :
    is_stream_unsupported_error ⟨"internal server error", some 500⟩ = false ∧
    producerRun (π := Unit)
        (fun _ => Except.error ⟨"internal server error", some 500⟩)
        (fun _ => Except.ok ⟨some "unused", none, [], some "stop"⟩) ()
      = (errBox "internal server error", []) ∧
    loopIter (π := Unit) []
        (fun _ => Except.error ⟨"internal server error", some 500⟩)
        (fun _ => Except.ok ⟨some "unused", none, [], some "stop"⟩) ()
        [Json.obj [("role", Json.str "user"), ("content", Json.str "hi")]] "m"
      = StepOut.finish
          [Json.obj [("role", Json.str "user"), ("content", Json.str "hi")],
           finalAssistantMsg "" "" "m" 0]
          [Event.done] := by
  refine ⟨by decide, rfl, rfl⟩

theorem noSave_noop (d : StoreData) (op : StoreOp) (h : opSaves d op = false) :
    applyOp d op = d := by
  cases op with
  | create id title created model =>
    cases hcase : getSession d id with
    | some s => simp [applyOp, hcase]
    | none => simp [opSaves, hcase] at h
  | append id msg ts => simp [opSaves] at h
  | rename id title ts =>
    cases hcase : getSession d id with
    | some s => simp [opSaves, hcase] at h
    | none => simp [applyOp, hcase]
  | update_model id m ts =>
    cases hcase : getSession d id with
    | some s => simp [opSaves, hcase] at h
    | none => simp [applyOp, hcase]
  | delete id =>
    cases hcase : getSession d id with
    | some s => simp [opSaves, hcase] at h
    | none => simp [applyOp, hcase]

theorem applyOps_cons (d : StoreData) (op : StoreOp) (l : List StoreOp) :
    applyOps d (op :: l) = applyOps (applyOp d op) l := by
  simp [applyOps]

/-- Claim C1: every mutating operation's persistence is the two-phase tmp
write plus atomic replace, so after ANY prefix of the micro-step trace of
any operation sequence — i.e. at every possible crash point — the live file
is the complete serialization of the store state reached by some prefix of
the completed operations, and the in-memory state is that same prefix state
or the one operation further; in particular, killing the process between two
consecutive appends leaves the file as the full serialization of the store
holding exactly the first appended message. -/
theorem c1_save_atomic_snapshot :
    (∀ (d : StoreData) (t0 : Option String) (ops : List StoreOp) (j : Nat),
      ∃ k, k ≤ ops.length ∧
        (runMicros ⟨d, t0, serializeStore d⟩ ((microList d ops).take j)).disk
          = serializeStore (applyOps d (ops.take k)) ∧
        ((runMicros ⟨d, t0, serializeStore d⟩ ((microList d ops).take j)).data
            = applyOps d (ops.take k) ∨
         (runMicros ⟨d, t0, serializeStore d⟩ ((microList d ops).take j)).data
            = applyOps d (ops.take (k + 1)))) ∧
    (∀ (c : String) (m1 m2 : Json) (t1 t2 : Int),
      (runMicros ⟨emptyStore, none, serializeStore emptyStore⟩
          ((microList emptyStore
            [StoreOp.append c m1 t1, StoreOp.append c m2 t2]).take 4)).disk
        = serializeStore ⟨[(c, ⟨"", t1, t1, [m1], none⟩)]⟩ ∧
      (runMicros ⟨emptyStore, none, serializeStore emptyStore⟩
          ((microList emptyStore
            [StoreOp.append c m1 t1, StoreOp.append c m2 t2]).take 5)).disk
        = serializeStore ⟨[(c, ⟨"", t1, t1, [m1], none⟩)]⟩) := by
  constructor
  · intro d t0 ops
    induction ops generalizing d t0 with
    | nil =>
      intro j
      refine ⟨0, by simp, ?_, Or.inl ?_⟩
      · simp [microList, runMicros, applyOps]
      · simp [microList, runMicros, applyOps]
    | cons op rest ih =>
      intro j
      by_cases hs : opSaves d op
      · have hml : microList d (op :: rest)
            = Micro.mutate op :: Micro.writeTmp (serializeStore (applyOp d op))
              :: Micro.replace (serializeStore (applyOp d op))
              :: microList (applyOp d op) rest := by
          simp [microList, hs]
        match j with
        | 0 =>
          refine ⟨0, by simp, ?_, Or.inl ?_⟩
          · simp [runMicros, applyOps]
          · simp [runMicros, applyOps]
        | 1 =>
          refine ⟨0, by simp, ?_, Or.inr ?_⟩
          · rw [hml]; simp [runMicros, stepMicro, applyOps]
          · rw [hml]; simp [runMicros, stepMicro, applyOps]
        | 2 =>
          refine ⟨0, by simp, ?_, Or.inr ?_⟩
          · rw [hml]; simp [runMicros, stepMicro, applyOps]
          · rw [hml]; simp [runMicros, stepMicro, applyOps]
        | (j + 3) =>
          obtain ⟨k, hk, hdisk, hdata⟩ :=
            ih (applyOp d op) (some (serializeStore (applyOp d op))) j
          refine ⟨k + 1, by simpa using Nat.succ_le_succ hk, ?_, ?_⟩
          · rw [hml]
            simp only [List.take_succ_cons]
            rw [applyOps_cons]
            simpa [runMicros, stepMicro] using hdisk
          · rw [hml]
            simp only [List.take_succ_cons]
            rcases hdata with hdata | hdata
            · refine Or.inl ?_
              rw [applyOps_cons]
              simpa [runMicros, stepMicro] using hdata
            · refine Or.inr ?_
              rw [applyOps_cons]
              simpa [runMicros, stepMicro] using hdata
      · have hnoop : applyOp d op = d := noSave_noop d op (by simpa using hs)
        have hml : microList d (op :: rest)
            = Micro.mutate op :: microList (applyOp d op) rest := by
          simp [microList, hs]
        match j with
        | 0 =>
          refine ⟨0, by simp, ?_, Or.inl ?_⟩
          · simp [runMicros, applyOps]
          · simp [runMicros, applyOps]
        | (j + 1) =>
          obtain ⟨k, hk, hdisk, hdata⟩ := ih d t0 j
          refine ⟨k + 1, by simpa using Nat.succ_le_succ hk, ?_, ?_⟩
          · rw [hml]
            simp only [List.take_succ_cons]
            rw [applyOps_cons, hnoop]
            simpa [runMicros, stepMicro, hnoop] using hdisk
          · rw [hml]
            simp only [List.take_succ_cons]
            rcases hdata with hdata | hdata
            · refine Or.inl ?_
              rw [applyOps_cons, hnoop]
              simpa [runMicros, stepMicro, hnoop] using hdata
            · refine Or.inr ?_
              rw [applyOps_cons, hnoop]
              simpa [runMicros, stepMicro, hnoop] using hdata
  · intro c m1 m2 t1 t2
    constructor
    · simp [microList, opSaves, applyOp, getSession, getSession.go, emptyStore,
        setSession, setSessionList, runMicros, stepMicro]
    · simp [microList, opSaves, applyOp, getSession, getSession.go, emptyStore,
        setSession, setSessionList, runMicros, stepMicro]
